import Mathlib

/-!
Verification of the query-submission core of a RethinkDB client driver
(`src/commands.rs`).  The development shallowly embeds the data model and
the operations of that file: the JSON value type used by the argument
encoder, the `wrap_arrays` normalization, the textual term builder
`Command::wrap`, the frame codec `Query::write` / `Query::read`, and the
retry state machine `RootCommand::run`.  Stateful socket I/O is modelled
by an oracle giving the outcome of each connection acquisition, frame
write and frame read, indexed by the attempt counter `i`; the loop emits
a trace of wire events so that connection-reuse and token properties can
be stated.
-/

/-- Model of `serde_json::Value` (serde_json 0.8: `Null`, `Bool`, `I64`,
`U64`, `F64`, `String`, `Array`, `Object`).  The `F64` payload is carried
as its rendered decimal form, which is all the embedded code ever does
with it; objects are association lists in key order. -/
inductive JValue where
  | null : JValue
  | bool (b : Bool) : JValue
  | i64 (n : Int) : JValue
  | u64 (n : Nat) : JValue
  | f64 (repr : String) : JValue
  | str (s : String) : JValue
  | arr (elems : List JValue) : JValue
  | obj (members : List (String × JValue)) : JValue

/-- `Value::is_array` in the source. -/
def JValue.isArr : JValue → Bool
  | .arr _ => true
  | _ => false

/-- `Value::is_object` in the source. -/
def JValue.isObj : JValue → Bool
  | .obj _ => true
  | _ => false

/-- A scalar is any value that is neither an array nor an object. -/
def JValue.isScalar (v : JValue) : Bool :=
  !(v.isArr || v.isObj)

/-- `tt::MAKE_ARRAY.value() as i64`: the MAKE_ARRAY opcode of the ql2
protocol, pushed by `wrap_arrays` (source line 410). -/
def MAKE_ARRAY : Int := 2

mutual

/-- `wrap_arrays` (source lines 407-433).  An array becomes the
two-element array `[MAKE_ARRAY, [elements]]` where array elements that
are themselves arrays or objects are recursively normalized; an object
keeps its keys and has every value recursively normalized (the source
iterates over a clone of the `BTreeMap` and re-inserts each key with the
wrapped value); anything else is returned unchanged. -/
def wrap_arrays : JValue → JValue
  | .arr elems => .arr [.i64 MAKE_ARRAY, .arr (wrapElems elems)]
  | .obj members => .obj (wrapMembers members)
  | v => v

/-- The element loop of `wrap_arrays` (source lines 412-419): arrays and
objects are normalized, everything else is pushed unchanged. -/
def wrapElems : List JValue → List JValue
  | [] => []
  | v :: vs => (if v.isArr || v.isObj then wrap_arrays v else v) :: wrapElems vs

/-- The member loop of `wrap_arrays` (source lines 425-429): each key is
re-inserted with its value normalized. -/
def wrapMembers : List (String × JValue) → List (String × JValue)
  | [] => []
  | (k, v) :: kvs => (k, wrap_arrays v) :: wrapMembers kvs

end

/-- Hex digit character, lowercase (used by both escaping models). -/
def hexDigitChar (n : Nat) : Char :=
  if n < 10 then Char.ofNat (48 + n) else Char.ofNat (87 + n)

/-- Minimal lowercase hexadecimal rendering of a number, no leading
zeros, as produced by Rust's `\u` escapes. -/
def hexLower (n : Nat) : String :=
  ⟨Nat.toDigits 16 n⟩

/-- Modelled behaviour of Rust's `Debug` formatting for one character of
a `&str` (the source encodes string arguments with `format!("{:?}", self)`,
source lines 26-36).  The era's `impl Debug for str` applied
`char::escape_default` to every character: `\t`, `\r`, `\n`, backslash,
single quote and double quote get two-character escapes, printable ASCII
(0x20-0x7e) is kept as-is, and every other character — every control
character and every non-ASCII character — is written with Rust's
`\u{...}` notation.  (Later toolchains keep printable non-ASCII
characters and the single quote literal, which only shrinks the set of
escaped characters; the theorems below quantify over the characters both
eras keep literal.) -/
def rustEscapeChar (c : Char) : String :=
  if c = '\t' then "\\t"
  else if c = '\r' then "\\r"
  else if c = '\n' then "\\n"
  else if c = '\\' then "\\\\"
  else if c = '\'' then "\\'"
  else if c = '"' then "\\\""
  else if 0x20 ≤ c.toNat ∧ c.toNat ≤ 0x7e then String.singleton c
  else "\\u\x7b" ++ hexLower c.toNat ++ "\x7d"

/-- `format!("{:?}", s)` applied to every character. -/
def rustEscape : List Char → List Char
  | [] => []
  | c :: cs => (rustEscapeChar c).data ++ rustEscape cs

/-- Model of `format!("{:?}", s)` for a `&str`/`String` argument: the
escaped characters surrounded by double quotes (source lines 26-36). -/
def rustDebugStr (s : String) : String :=
  ⟨'"' :: (rustEscape s.data ++ ['"'])⟩

/-- JSON string escaping as performed by the serializer: quote,
backslash, the short control escapes, and `\u00XX` for the remaining
control characters. -/
def jsonEscapeChar (c : Char) : String :=
  if c = '"' then "\\\""
  else if c = '\\' then "\\\\"
  else if c = '\x08' then "\\b"
  else if c = '\x0c' then "\\f"
  else if c = '\n' then "\\n"
  else if c = '\r' then "\\r"
  else if c = '\t' then "\\t"
  else if c.toNat < 0x20 then
    "\\u00" ++ String.singleton (hexDigitChar (c.toNat / 16))
      ++ String.singleton (hexDigitChar (c.toNat % 16))
  else String.singleton c

/-- JSON string escaping applied to every character. -/
def jsonEscape : List Char → List Char
  | [] => []
  | c :: cs => (jsonEscapeChar c).data ++ jsonEscape cs

/-- A JSON string literal: the escaped characters surrounded by double
quotes. -/
def renderString (s : String) : String :=
  ⟨'"' :: (jsonEscape s.data ++ ['"'])⟩

mutual

/-- Compact JSON serialization of a `JValue`, as `serde_json::to_string`
produces it: no whitespace, object members as `key:value`. -/
def render : JValue → String
  | .null => "null"
  | .bool b => if b then "true" else "false"
  | .i64 n => toString n
  | .u64 n => toString n
  | .f64 r => r
  | .str s => renderString s
  | .arr elems => "[" ++ renderElems elems ++ "]"
  | .obj members => "\x7b" ++ renderMembers members ++ "\x7d"

/-- Comma-separated serialization of array elements. -/
def renderElems : List JValue → String
  | [] => ""
  | [v] => render v
  | v :: vs => render v ++ "," ++ renderElems vs

/-- Comma-separated serialization of object members. -/
def renderMembers : List (String × JValue) → String
  | [] => ""
  | [(k, v)] => renderString k ++ ":" ++ render v
  | (k, v) :: kvs => renderString k ++ ":" ++ render v ++ "," ++ renderMembers kvs

end

/-- Value of a hexadecimal digit character, if any. -/
def hexVal (c : Char) : Option Nat :=
  if 48 ≤ c.toNat ∧ c.toNat ≤ 57 then some (c.toNat - 48)
  else if 97 ≤ c.toNat ∧ c.toNat ≤ 102 then some (c.toNat - 87)
  else if 65 ≤ c.toNat ∧ c.toNat ≤ 70 then some (c.toNat - 55)
  else none

/-- Body of a JSON string literal after the opening quote: decodes up to
the closing quote, which must end the input.  Returns the denoted
characters, or `none` when the input is not a valid JSON string literal
(unescaped control character, bad escape, missing quote; a `\uXXXX`
escape must denote a Unicode scalar value — surrogate pairs are not
needed here). -/
def parseBody : List Char → Option (List Char)
  | [] => none
  | c :: rest =>
    if c = '"' then (if rest.isEmpty then some [] else none)
    else if c = '\\' then
      match rest with
      | [] => none
      | e :: rest' =>
        if e = '"' then (parseBody rest').map (fun cs => '"' :: cs)
        else if e = '\\' then (parseBody rest').map (fun cs => '\\' :: cs)
        else if e = '/' then (parseBody rest').map (fun cs => '/' :: cs)
        else if e = 'b' then (parseBody rest').map (fun cs => '\x08' :: cs)
        else if e = 'f' then (parseBody rest').map (fun cs => '\x0c' :: cs)
        else if e = 'n' then (parseBody rest').map (fun cs => '\n' :: cs)
        else if e = 'r' then (parseBody rest').map (fun cs => '\r' :: cs)
        else if e = 't' then (parseBody rest').map (fun cs => '\t' :: cs)
        else if e = 'u' then
          match rest' with
          | h1 :: h2 :: h3 :: h4 :: rest2 =>
            match hexVal h1, hexVal h2, hexVal h3, hexVal h4 with
            | some a, some b, some c, some d =>
              let n := ((a * 16 + b) * 16 + c) * 16 + d
              if n < 0xd800 ∨ 0xe000 ≤ n then
                (parseBody rest2).map (fun cs => Char.ofNat n :: cs)
              else none
            | _, _, _, _ => none
          | _ => none
        else none
    else if c.toNat < 0x20 then none
    else (parseBody rest).map (fun cs => c :: cs)

/-- Whether a string is exactly one valid JSON string literal; if so,
the string it denotes. -/
def jsonParseString (s : String) : Option String :=
  match s.data with
  | '"' :: rest => (parseBody rest).map (fun cs => ⟨cs⟩)
  | _ => none

/-- Build-time errors (`DriverError` in the source): `Json` for a
serialization failure, `Other` for programmer misuse. -/
inductive BuildErr where
  | json : BuildErr
  | other (msg : String) : BuildErr
deriving DecidableEq, Repr

/-- `Error::description` of a build error, used when a failed
`RootCommand` is itself passed as an argument (source line 68). -/
def BuildErr.describe : BuildErr → String
  | .json => "JSON serialization failure"
  | .other msg => msg

/-- The misuse message for a non-object options value (source line 55). -/
def optionsMsg : String :=
  "Only objects are allowed as function options. You should use `r.object()` to pass optional arguments in your functions."

/-- The supported variants of `IntoCommandArg` (source lines 22-96):
strings, JSON values, an already-built `RootCommand`, a
`(positional, options)` pair, and the scalar impls (of which booleans,
integers and chars are represented; floats behave like the other
scalars). -/
inductive CmdArg where
  | strA (s : String) : CmdArg
  | jsonA (v : JValue) : CmdArg
  | rootA (r : Except BuildErr String) : CmdArg
  | pairA (a : CmdArg) (opts : JValue) : CmdArg
  | boolA (b : Bool) : CmdArg
  | intA (n : Int) : CmdArg
  | charA (c : Char) : CmdArg

/-- `IntoCommandArg::to_arg` (source lines 22-96).  Strings are Debug
formatted; a JSON value is array-wrap normalized and serialized (always
a `(Some positional, None)` pair); a built `RootCommand` passes its
string through, or converts its error to `DriverError::Other` of the
description; a pair demands an object in the options slot, encodes the
positional half recursively and the options half as a JSON value; the
scalar impls use `to_string`. -/
def to_arg : CmdArg → Except BuildErr (Option String × Option String)
  | .strA s => .ok (some (rustDebugStr s), none)
  | .jsonA v => .ok (some (render (wrap_arrays v)), none)
  | .rootA (.ok cmd) => .ok (some cmd, none)
  | .rootA (.error e) => .error (.other e.describe)
  | .pairA a opts =>
    if opts.isObj = false then .error (.other optionsMsg)
    else
      match to_arg a with
      | .error e => .error e
      | .ok arg => .ok (arg.1, some (render (wrap_arrays opts)))
  | .boolA b => .ok (some (if b then "true" else "false"), none)
  | .intA n => .ok (some (toString n), none)
  | .charA c => .ok (some (String.singleton c), none)

/-- `Command::wrap` (source lines 309-341).  Builds
`"[" ++ opcode ++ ",[" ++ args ++ "]" ++ (",opts")? ++ "]"` textually:
the args slot holds the sub-term string (if any), then a comma when an
input argument is also present, then the encoded positional argument;
the options component, when the encoding produced one, is appended after
the args slot. -/
def Command.wrap (command : Nat) (input : Option CmdArg) (commands : Option String) :
    Except BuildErr String :=
  let args0 : String :=
    match commands with
    | some c => c ++ (if input.isSome then "," else "")
    | none => ""
  match input with
  | none => .ok ("[" ++ toString command ++ ",[" ++ args0 ++ "]]")
  | some inp =>
    match to_arg inp with
    | .error e => .error e
    | .ok (arguments, options) =>
      let args1 : String :=
        match arguments with
        | some a => args0 ++ a
        | none => args0
      let head : String := "[" ++ toString command ++ ",[" ++ args1 ++ "]"
      let withOpts : String :=
        match options with
        | some opts => head ++ "," ++ opts
        | none => head
      .ok (withOpts ++ "]")

/-- `Query::wrap` (source lines 344-357): the top-level query envelope
`[query_type (, query)? (, options)?]`. -/
def Query.wrapEnvelope (query_type : Nat) (query : Option String)
    (options : Option String) : String :=
  "[" ++ toString query_type
    ++ (match query with | some q => "," ++ q | none => "")
    ++ (match options with | some opts => "," ++ opts | none => "")
    ++ "]"

/-- Little-endian byte encoding of `n` on `w` bytes (as
`write_u64::<LittleEndian>` / `write_u32::<LittleEndian>` emit; the
`as u32` length cast simply drops high bytes, which the 4-byte window
reproduces). -/
def leBytes : Nat → Nat → List Nat
  | 0, _ => []
  | w + 1, n => n % 256 :: leBytes w (n / 256)

/-- Little-endian decoding of `w` bytes from the front of a stream
(`read_u64::<LittleEndian>` / `read_u32::<LittleEndian>`); fails when
the stream is too short. -/
def readLE : Nat → List Nat → Option (Nat × List Nat)
  | 0, s => some (0, s)
  | _ + 1, [] => none
  | w + 1, b :: s => (readLE w s).map (fun p => (b + 256 * p.1, p.2))

/-- `read_exact` into a buffer of the given length. -/
def takeExact : Nat → List Nat → Option (List Nat × List Nat)
  | 0, s => some ([], s)
  | _ + 1, [] => none
  | n + 1, b :: s => (takeExact n s).map (fun p => (b :: p.1, p.2))

/-- Byte-level content of `Query::write` (source lines 359-379): 8-byte
little-endian token, 4-byte little-endian payload length
(`query.len() as u32`), then the payload bytes. -/
def Query.writeFrame (token : Nat) (payload : List Nat) : List Nat :=
  leBytes 8 token ++ leBytes 4 payload.length ++ payload

/-- Byte-level content of `Query::read` (source lines 381-404): decode
the 8-byte token (the source binds and discards it), the 4-byte length,
then exactly `length` payload bytes; returns the token, the payload and
the unconsumed remainder of the stream. -/
def Query.readFrame (s : List Nat) : Option (Nat × List Nat × List Nat) :=
  match readLE 8 s with
  | none => none
  | some (tok, s1) =>
    match readLE 4 s1 with
    | none => none
    | some (len, s2) =>
      match takeExact len s2 with
      | none => none
      | some (payload, rest) => some (tok, payload, rest)

/-- `Connection` (the `conn` module): the per-query token counter and
the broken flag.  The model additionally tags each connection with an
identifier (its acquisition index) so that traces can speak about which
connection a wire operation used. -/
structure Conn where
  id : Nat
  token : Nat
  broken : Bool
deriving DecidableEq, Repr

/-- The transport oracle: the outcome of the connection acquisition,
frame write and frame read that attempt `i` would perform.  `acq i`
yields the initial token counter of the fresh connection. -/
structure Oracle (E : Type) where
  acq : Nat → Except E Nat
  wr : Nat → Option E
  rd : Nat → Except E String

/-- Wire-level trace events of the submission engine. -/
inductive Ev where
  | acquired (id token0 : Nat) : Ev
  | wrote (id token : Nat) (brokenBefore ok : Bool) : Ev
  | readEv (id : Nat) (brokenBefore ok : Bool) : Ev
deriving DecidableEq, Repr

/-- Errors surfaced by `RootCommand::run`: a build error from the
command chain, a transport error (connection acquisition or frame I/O),
or `AvailabilityError::OpFailed`. -/
inductive RunErr (E : Type) where
  | build (e : BuildErr) : RunErr E
  | net (e : E) : RunErr E
  | opFailed (msg : String) : RunErr E
deriving DecidableEq

/-- Connection-state effect of `Query::write` (source lines 359-379):
any I/O failure sets `broken := true` and surfaces the error; a
successful write leaves the connection unchanged.  The I/O outcome is
supplied by the oracle. -/
def Query.writeStep {E : Type} (res : Option E) (c : Conn) : Conn × Option E :=
  match res with
  | some e => ({ c with broken := true }, some e)
  | none => (c, none)

/-- Connection-state effect of `Query::read` (source lines 381-404):
any I/O failure sets `broken := true` and surfaces the error; a
successful read returns the payload (modelled as its UTF-8 decoding,
i.e. the valid-UTF-8 case of `str::from_utf8` on line 265). -/
def Query.readStep {E : Type} (res : Except E String) (c : Conn) :
    Conn × Except E String :=
  match res with
  | .error e => ({ c with broken := true }, .error e)
  | .ok payload => (c, .ok payload)

/-- The replayable-write-failure literal (source line 270). -/
def shardUnavailableMsg : String :=
  "\x7b\"t\":18,\"e\":4100000,\"r\":[\"Cannot perform write: primary replica for shard"

/-- Character-level prefix test. -/
def prefixOfChars : List Char → List Char → Bool
  | [], _ => true
  | _ :: _, [] => false
  | a :: as, b :: bs => a = b && prefixOfChars as bs

/-- `str::starts_with p` on `s`. -/
def strStarts (s p : String) : Bool :=
  prefixOfChars p.data s.data

/-- The read-and-classify stage of one attempt of `RootCommand::run`
(source lines 262-303), with the rest of the loop as the continuation
`k i write connect conn nextId`.  A payload starting with
`shardUnavailableMsg` sets `write := true` and retries, or surfaces
`AvailabilityError::OpFailed` on the last attempt (lines 270-284); any
other payload breaks out of the loop, after which the function returns
`Ok(String::new())` (lines 285-289 and 305); a read failure sets
`write := false` and retries or surfaces (lines 291-301). -/
def readStage {E : Type} (o : Oracle E) (retries i : Nat) (connect : Bool)
    (conn : Conn) (nextId : Nat)
    (k : Nat → Bool → Bool → Conn → Nat → List Ev × Except (RunErr E) String) :
    List Ev × Except (RunErr E) String :=
  match Query.readStep (o.rd i) conn with
  | (conn', .ok resp) =>
    if strStarts resp shardUnavailableMsg then
      if i = retries - 1 then
        ([Ev.readEv conn.id conn.broken true], .error (.opFailed ("Not available")))
      else
        let r := k (i + 1) true connect conn' nextId
        (Ev.readEv conn.id conn.broken true :: r.1, r.2)
    else
      ([Ev.readEv conn.id conn.broken true], .ok "")
  | (conn', .error e) =>
    if i = retries - 1 then
      ([Ev.readEv conn.id conn.broken false], .error (.net e))
    else
      let r := k (i + 1) false connect conn' nextId
      (Ev.readEv conn.id conn.broken false :: r.1, r.2)

/-- One attempt of the retry loop after the acquisition stage (source
lines 244-303): bump the token counter (line 245, u64 arithmetic), write
the query when `write` is set — a write failure sets `connect := true`
and retries or surfaces (lines 246-258), a successful write resets
`connect := false` (line 260) — then read and classify. -/
def runAttempt {E : Type} (o : Oracle E) (retries i : Nat) (write connect : Bool)
    (conn : Conn) (nextId : Nat)
    (k : Nat → Bool → Bool → Conn → Nat → List Ev × Except (RunErr E) String) :
    List Ev × Except (RunErr E) String :=
  let conn1 : Conn := { conn with token := (conn.token + 1) % 2 ^ 64 }
  if write then
    match Query.writeStep (o.wr i) conn1 with
    | (conn2, some e) =>
      if i = retries - 1 then
        ([Ev.wrote conn1.id conn1.token conn1.broken false], .error (.net e))
      else
        let r := k (i + 1) write true conn2 nextId
        (Ev.wrote conn1.id conn1.token conn1.broken false :: r.1, r.2)
    | (conn2, none) =>
      let r := readStage o retries i false conn2 nextId k
      (Ev.wrote conn1.id conn1.token conn1.broken true :: r.1, r.2)
  else
    readStage o retries i connect conn1 nextId k

/-- The retry loop of `RootCommand::run` (source lines 222-304), with
`fuel = retries - i` iterations remaining.  When `connect` is set, the
attempt first drops the current connection and acquires a fresh one —
an acquisition failure surfaces on the last attempt and otherwise
retries with `connect` still set (lines 228-243); fresh connections get
the next model identifier.  Fuel exhaustion is the `i < retries` loop
exit, after which the function returns `Ok(String::new())` (line 305). -/
def runLoop {E : Type} (o : Oracle E) (retries : Nat) :
    Nat → Nat → Bool → Bool → Conn → Nat → List Ev × Except (RunErr E) String
  | 0, _, _, _, _, _ => ([], .ok "")
  | fuel + 1, i, write, connect, conn, nextId =>
    if connect then
      match o.acq i with
      | .error e =>
        if i = retries - 1 then ([], .error (.net e))
        else runLoop o retries fuel (i + 1) write true conn nextId
      | .ok t0 =>
        let r := runAttempt o retries i write true ⟨nextId, t0, false⟩ (nextId + 1)
          (runLoop o retries fuel)
        (Ev.acquired nextId t0 :: r.1, r.2)
    else
      runAttempt o retries i write connect conn nextId (runLoop o retries fuel)

/-- `RootCommand::run` (source lines 213-307).  The built command string
is unwrapped first (line 216, `try!(self.0)`), the envelope is built
(line 218), the initial connection is acquired before the loop (line
220, `try!(Client::conn())`) — its failure surfaces immediately — and
the loop starts with `i = 0`, `write = true`, `connect = false`. -/
def RootCommand.run {E : Type} (self : Except BuildErr String) (retries : Nat)
    (initialConn : Except E Nat) (o : Oracle E) :
    List Ev × Except (RunErr E) String :=
  match self with
  | .error e => ([], .error (.build e))
  | .ok commands =>
    let _query := Query.wrapEnvelope 1 (some commands) none
    match initialConn with
    | .error e => ([], .error (.net e))
    | .ok t0 =>
      let r := runLoop o retries retries 0 true false ⟨0, t0, false⟩ 1
      (Ev.acquired 0 t0 :: r.1, r.2)

/-- The body generated by the `command!` macro (source lines 170-184):
a chained command propagates an upstream error without building
anything, and otherwise wraps the opcode around the argument and the
accumulated command string. -/
def RootCommand.chain (cmd : Nat) (self : Except BuildErr String) (arg : CmdArg) :
    Except BuildErr String :=
  match self with
  | .error e => .error e
  | .ok commands => Command.wrap cmd (some arg) (some commands)

/-- `RootCommand::delete` (source lines 203-211): like a chained
command but with no argument (`tt::DELETE = 54`). -/
def RootCommand.delete (self : Except BuildErr String) : Except BuildErr String :=
  match self with
  | .error e => .error e
  | .ok commands => Command.wrap 54 none (some commands)

/-- Whether an event is a frame operation on connection `c`. -/
def Ev.touches (c : Nat) : Ev → Bool
  | .wrote id _ _ _ => id = c
  | .readEv id _ _ => id = c
  | .acquired _ _ => false

/-- Tokens of the successful frame-writes performed on connection `c`,
in trace order. -/
def okWriteTokens (c : Nat) : List Ev → List Nat
  | [] => []
  | .wrote id tok _ true :: rest =>
    if id = c then tok :: okWriteTokens c rest else okWriteTokens c rest
  | _ :: rest => okWriteTokens c rest

/-- After a failed frame-write, that connection is banned. -/
def bannedAfter (banned : List Nat) : Ev → List Nat
  | .wrote id _ _ false => id :: banned
  | _ => banned

/-- No event of the trace is a frame operation on a connection whose
frame-write previously failed (with `banned` the connections already in
that state). -/
def noReuseFrom : List Nat → List Ev → Prop
  | _, [] => True
  | banned, e :: rest =>
    (∀ c ∈ banned, Ev.touches c e = false) ∧ noReuseFrom (bannedAfter banned e) rest

/-- Transport in which every operation succeeds and every read returns
the payload `resp`. -/
def oracleSuccess : Oracle Unit :=
  ⟨fun _ => .ok 0, fun _ => none, fun _ => .ok ("resp")⟩

/-- Transport in which the first read fails and every later read
succeeds. -/
def oracleReadFailOnce : Oracle Unit :=
  ⟨fun _ => .ok 0, fun _ => none, fun i => if i = 0 then .error () else .ok ("resp")⟩

/-- Transport in which every in-loop connection acquisition fails. -/
def oracleAcqFail : Oracle Unit :=
  ⟨fun _ => .error (), fun _ => none, fun _ => .ok ("resp")⟩

/-- Transport in which every read returns the replayable-write-failure
payload. -/
def oracleShard : Oracle Unit :=
  ⟨fun _ => .ok 0, fun _ => none, fun _ => .ok shardUnavailableMsg⟩

/-- Facts about the write tokens appearing in a trace, relative to a
current connection (`connId`, whose token counter currently holds
`connTok`) and the next fresh identifier `nid`: the successful write
tokens on the current connection strictly increase and all exceed
`connTok`; every connection acquired within the trace has strictly
increasing write tokens starting at its initial token plus one; acquired
identifiers are fresh; and wire operations only touch the current or a
fresh connection. -/
structure TokenFacts (connId connTok nid : Nat) (evs : List Ev) : Prop where
  chainCur : List.Chain' (· < ·) (okWriteTokens connId evs)
  gtCur : ∀ x ∈ okWriteTokens connId evs, connTok < x
  freshChain : ∀ c t0, nid ≤ c → Ev.acquired c t0 ∈ evs →
    List.Chain' (· < ·) (okWriteTokens c evs)
    ∧ ∀ x, (okWriteTokens c evs).head? = some x → x = t0 + 1
  freshId : ∀ c t0, Ev.acquired c t0 ∈ evs → nid ≤ c
  touchedIds : ∀ e ∈ evs, ∀ c, Ev.touches c e = true → c = connId ∨ nid ≤ c

deriving instance DecidableEq for Except

lemma wrap_arrays_scalar (v : JValue) (h : v.isScalar = true) : wrap_arrays v = v := by
  cases v <;> simp_all [JValue.isScalar, JValue.isArr, JValue.isObj, wrap_arrays]

lemma wrapElems_eq_map (elems : List JValue) :
    wrapElems elems = elems.map wrap_arrays := by
  induction elems with
  | nil => simp [wrapElems]
  | cons v vs ih =>
    simp only [wrapElems, List.map_cons, ih, List.cons.injEq, and_true]
    by_cases ha : v.isArr
    · simp [ha]
    · by_cases ho : v.isObj
      · simp [ho]
      · have hs : v.isScalar = true := by simp [JValue.isScalar, ha, ho]
        simp [ha, ho, wrap_arrays_scalar v hs]

lemma wrapMembers_eq_map (members : List (String × JValue)) :
    wrapMembers members = members.map (fun kv => (kv.1, wrap_arrays kv.2)) := by
  induction members with
  | nil => simp [wrapMembers]
  | cons kv kvs ih => cases kv; simp [wrapMembers, ih]

/-- C5: array-wrap normalization is structural.  Every JSON array is
rewritten to the two-element array `[MAKE_ARRAY, [normalized elements]]`
with every element recursively normalized; every object keeps exactly
its keys with each value recursively normalized and is itself not
wrapped; every scalar is returned unchanged. -/
theorem wrap_arrays_structural :
    (∀ elems : List JValue,
        wrap_arrays (.arr elems) = .arr [.i64 MAKE_ARRAY, .arr (elems.map wrap_arrays)])
    ∧ (∀ members : List (String × JValue),
        wrap_arrays (.obj members)
          = .obj (members.map (fun kv => (kv.1, wrap_arrays kv.2))))
    ∧ (∀ v : JValue, v.isScalar = true → wrap_arrays v = v) := by
  refine ⟨fun elems => ?_, fun members => ?_, fun v h => wrap_arrays_scalar v h⟩
  · simp [wrap_arrays, wrapElems_eq_map]
  · simp [wrap_arrays, wrapMembers_eq_map]

/-- Closed instance discharging the scalar hypothesis of
`wrap_arrays_structural` at a concrete input. -/
theorem wrap_arrays_structural_witness :
    wrap_arrays (.str "a") = .str "a" :=
  wrap_arrays_structural.2.2 (.str "a") (by decide)

/-- C10: once any command in a fluent chain has produced an error, every
subsequently chained command (for every opcode and argument, hence
without consulting the term builder) returns that same error unchanged,
as does `delete`; and `run` on such a chain returns the error with an
empty wire trace — no connection is acquired and no frame I/O happens. -/
theorem chain_error_short_circuits :
    (∀ (cmd : Nat) (arg : CmdArg) (e : BuildErr),
        RootCommand.chain cmd (.error e) arg = .error e)
    ∧ (∀ e : BuildErr, RootCommand.delete (.error e) = .error e)
    ∧ (∀ (E : Type) (o : Oracle E) (retries : Nat) (initialConn : Except E Nat)
        (e : BuildErr),
        RootCommand.run (.error e) retries initialConn o = ([], .error (.build e))) :=
  ⟨fun _ _ _ => rfl, fun _ => rfl, fun _ _ _ _ _ => rfl⟩

/-- C1, evaluated at the failing input: with `retries = 1` and a
transport whose only read returns the payload `"resp"` (which does not
start with the replayable-write-failure literal), `run` does terminate
on that attempt, but it returns `Ok(String::new())` — the empty string —
instead of the payload (source lines 285-289 drop into the final
`Ok(String::new())` on line 305 after `break`). -/
theorem run_discards_success_payload :
    (RootCommand.run (.ok ("[1]")) 1 (.ok 0 : Except Unit Nat) oracleSuccess).2 = .ok ""
    ∧ ("" : String) ≠ "resp" := by
  constructor
  · rfl
  · decide

/-- C2 counterexample: with `retries = 2`, a successful write and a
failed read on attempt 0 (which sets `broken := true` on connection 0),
attempt 1 performs its frame-read on that same broken connection — the
trace contains a read event on connection 0 with `brokenBefore = true`.
The engine does not set `connect` after a read failure (source lines
291-301), so the broken connection is not discarded. -/
theorem read_reuses_broken_connection :
    Ev.readEv 0 true true
      ∈ (RootCommand.run (.ok ("[1]")) 2 (.ok 0 : Except Unit Nat)
          oracleReadFailOnce).1 := by
  decide

/-- C3 counterexample: the claim quantifies over every
connection-acquisition failure, but the acquisition performed before the
loop (source line 220, `try!(Client::conn())`) surfaces its error
immediately even though `retries = 5` leaves four further attempts. -/
theorem initial_acquire_failure_surfaces :
    (RootCommand.run (.ok ("q")) 5 (.error () : Except Unit Nat) oracleSuccess).2
      = .error (.net ()) := by
  rfl

/-- C3 as amended: for the acquisitions performed inside the retry loop
(source lines 228-243), a failure on an attempt other than the last does
not surface — the engine increments the attempt index and retries the
acquisition (with `connect` still set, the connection unchanged) — and a
failure on the last attempt is returned as the error. -/
theorem acquire_failure_retried {E : Type} (o : Oracle E) (retries fuel i : Nat)
    (w : Bool) (conn : Conn) (nextId : Nat) (e : E)
    (hacq : o.acq i = .error e) :
    (i ≠ retries - 1 →
      runLoop o retries (fuel + 1) i w true conn nextId
        = runLoop o retries fuel (i + 1) w true conn nextId)
    ∧ (i = retries - 1 →
      runLoop o retries (fuel + 1) i w true conn nextId = ([], .error (.net e))) := by
  constructor
  · intro h; simp [runLoop, hacq, h]
  · intro h; subst h; simp [runLoop, hacq]

/-- Closed instance of `acquire_failure_retried` at a concrete input
(attempt 0 of 3, every acquisition failing). -/
theorem acquire_failure_retried_witness :
    runLoop oracleAcqFail 3 3 0 true true ⟨0, 0, false⟩ 1
      = runLoop oracleAcqFail 3 2 1 true true ⟨0, 0, false⟩ 1 :=
  (acquire_failure_retried oracleAcqFail 3 2 0 true ⟨0, 0, false⟩ 1 () rfl).1 (by decide)

lemma readStage_ok_empty {E : Type} (o : Oracle E) (retries i : Nat) (connect : Bool)
    (conn : Conn) (nextId : Nat)
    (k : Nat → Bool → Bool → Conn → Nat → List Ev × Except (RunErr E) String)
    (hk : ∀ i' w' c' conn' nid' s, (k i' w' c' conn' nid').2 = .ok s → s = "")
    (s : String) (h : (readStage o retries i connect conn nextId k).2 = .ok s) :
    s = "" := by
  cases hrd : o.rd i with
  | ok resp =>
    by_cases hp : strStarts resp shardUnavailableMsg
    · by_cases hl : i = retries - 1
      · subst hl; simp [readStage, Query.readStep, hrd, hp] at h
      · simp [readStage, Query.readStep, hrd, hp, hl] at h
        exact hk _ _ _ _ _ s h
    · simp [readStage, Query.readStep, hrd, hp] at h
      exact h.symm
  | error e =>
    by_cases hl : i = retries - 1
    · subst hl; simp [readStage, Query.readStep, hrd] at h
    · simp [readStage, Query.readStep, hrd, hl] at h
      exact hk _ _ _ _ _ s h

lemma runAttempt_ok_empty {E : Type} (o : Oracle E) (retries i : Nat)
    (write connect : Bool) (conn : Conn) (nextId : Nat)
    (k : Nat → Bool → Bool → Conn → Nat → List Ev × Except (RunErr E) String)
    (hk : ∀ i' w' c' conn' nid' s, (k i' w' c' conn' nid').2 = .ok s → s = "")
    (s : String) (h : (runAttempt o retries i write connect conn nextId k).2 = .ok s) :
    s = "" := by
  cases write with
  | false =>
    simp [runAttempt] at h
    exact readStage_ok_empty o retries i connect _ nextId k hk s h
  | true =>
    cases hwr : o.wr i with
    | some e =>
      by_cases hl : i = retries - 1
      · subst hl; simp [runAttempt, Query.writeStep, hwr] at h
      · simp [runAttempt, Query.writeStep, hwr, hl] at h
        exact hk _ _ _ _ _ s h
    | none =>
      simp [runAttempt, Query.writeStep, hwr] at h
      exact readStage_ok_empty o retries i false _ nextId k hk s h

lemma runLoop_ok_empty {E : Type} (o : Oracle E) (retries : Nat) :
    ∀ fuel i w connect conn nextId s,
      (runLoop o retries fuel i w connect conn nextId).2 = .ok s → s = "" := by
  intro fuel
  induction fuel with
  | zero =>
    intro i w connect conn nextId s h
    simp [runLoop] at h
    exact h.symm
  | succ fuel ih =>
    intro i w connect conn nextId s h
    cases connect with
    | false =>
      simp [runLoop] at h
      exact runAttempt_ok_empty o retries i w false conn nextId _
        (fun i' w' c' cn' nd' s' h' => ih i' w' c' cn' nd' s' h') s h
    | true =>
      cases hacq : o.acq i with
      | error e =>
        by_cases hl : i = retries - 1
        · subst hl; simp [runLoop, hacq] at h
        · simp [runLoop, hacq, hl] at h
          exact ih _ _ _ _ _ s h
      | ok t0 =>
        simp [runLoop, hacq] at h
        exact runAttempt_ok_empty o retries i w true _ _ _
          (fun i' w' c' cn' nd' s' h' => ih i' w' c' cn' nd' s' h') s h

/-- C4: a read payload that starts with the replayable-write-failure
literal is never returned as a successful response.  On the last attempt
the engine surfaces `AvailabilityError::OpFailed`; on every other
attempt it retries with the write re-enabled (`write := true`, the
continuation runs from `i + 1`); and no successful result of the stage
carries the replayable-write-failure payload. -/
theorem replayable_write_classification {E : Type} (o : Oracle E)
    (retries fuel i : Nat) (connect : Bool) (conn : Conn) (nextId : Nat)
    (p : String) (hrd : o.rd i = .ok p)
    (hp : strStarts p shardUnavailableMsg = true) :
    (i = retries - 1 →
      (readStage o retries i connect conn nextId (runLoop o retries fuel)).2
        = .error (.opFailed ("Not available")))
    ∧ (i ≠ retries - 1 →
      (readStage o retries i connect conn nextId (runLoop o retries fuel)).2
        = (runLoop o retries fuel (i + 1) true connect conn nextId).2)
    ∧ (∀ s, (readStage o retries i connect conn nextId (runLoop o retries fuel)).2
          = .ok s → strStarts s shardUnavailableMsg = false) := by
  refine ⟨fun hl => ?_, fun hl => ?_, fun s hs => ?_⟩
  · subst hl; simp [readStage, Query.readStep, hrd, hp]
  · simp [readStage, Query.readStep, hrd, hp, hl]
  · have : s = "" := readStage_ok_empty o retries i connect conn nextId _
      (fun i' w' c' cn' nd' s' h' => runLoop_ok_empty o retries fuel i' w' c' cn' nd' s' h')
      s hs
    subst this
    decide

/-- Closed instance of `replayable_write_classification`: one attempt
(`retries = 1`), the read returns the replayable-write-failure payload,
and the stage surfaces `AvailabilityError::OpFailed`. -/
theorem replayable_write_classification_witness :
    (readStage oracleShard 1 0 false ⟨0, 1, false⟩ 1 (runLoop oracleShard 1 0)).2
      = .error (.opFailed ("Not available")) :=
  (replayable_write_classification oracleShard 1 0 0 false ⟨0, 1, false⟩ 1
    shardUnavailableMsg rfl (by decide)).1 rfl

lemma mod_mul_decomp (n M : Nat) (hM : 0 < M) :
    n % 256 + 256 * (n / 256 % M) = n % (256 * M) := by
  have h1 : n % (256 * M) = (256 * (n / 256) + n % 256) % (256 * M) := by
    rw [Nat.div_add_mod]
  rw [h1, Nat.add_mod, Nat.mul_mod_mul_left]
  have hr : n % 256 < 256 := Nat.mod_lt _ (by omega)
  have hq : n / 256 % M < M := Nat.mod_lt _ hM
  have h2 : n % 256 % (256 * M) = n % 256 :=
    Nat.mod_eq_of_lt (by nlinarith)
  rw [h2]
  have h3 : 256 * (n / 256 % M) + n % 256 < 256 * M := by nlinarith
  rw [Nat.mod_eq_of_lt h3]
  omega

lemma readLE_leBytes (w : Nat) : ∀ (n : Nat) (s : List Nat),
    readLE w (leBytes w n ++ s) = some (n % 256 ^ w, s) := by
  induction w with
  | zero => intro n s; simp [readLE, leBytes, Nat.mod_one]
  | succ w ih =>
    intro n s
    have harith : n % 256 + 256 * (n / 256 % 256 ^ w) = n % 256 ^ (w + 1) := by
      rw [pow_succ, mul_comm (256 ^ w) 256]
      exact mod_mul_decomp n (256 ^ w) (by positivity)
    simp [leBytes, readLE, List.cons_append, ih, harith]

lemma takeExact_append (p s : List Nat) :
    takeExact p.length (p ++ s) = some (p, s) := by
  induction p with
  | nil => simp [takeExact]
  | cons b bs ih => simp [takeExact, ih]

/-- C7: frame round-trip.  Writing a frame for any token (below `2^64`,
as the `u64` counter is) and any payload of length at most `2^32 - 1`
bytes and then decoding the resulting byte stream with the frame codec
yields the same token, a byte-identical payload, and leaves exactly the
trailing bytes unconsumed. -/
theorem frame_roundtrip (token : Nat) (payload rest : List Nat)
    (htok : token < 2 ^ 64) (hlen : payload.length < 2 ^ 32) :
    Query.readFrame (Query.writeFrame token payload ++ rest)
      = some (token, payload, rest) := by
  have h256 : (256 : Nat) ^ 8 = 2 ^ 64 := by norm_num
  have h2564 : (256 : Nat) ^ 4 = 2 ^ 32 := by norm_num
  unfold Query.writeFrame Query.readFrame
  rw [List.append_assoc, List.append_assoc, readLE_leBytes]
  simp only [h256, Nat.mod_eq_of_lt htok]
  rw [readLE_leBytes]
  simp only [h2564, Nat.mod_eq_of_lt hlen]
  rw [takeExact_append]

/-- Closed instance of `frame_roundtrip` at a concrete token and
payload. -/
theorem frame_roundtrip_witness :
    Query.readFrame (Query.writeFrame 7 [1, 2, 3] ++ []) = some (7, [1, 2, 3], []) :=
  frame_roundtrip 7 [1, 2, 3] [] (by norm_num) (by norm_num)

lemma parseBody_rustEscape : ∀ (cs : List Char),
    (∀ c ∈ cs, 0x20 ≤ c.toNat ∧ c.toNat ≤ 0x7e ∧ c ≠ '\'') →
    parseBody (rustEscape cs ++ ['"']) = some cs := by
  intro cs
  induction cs with
  | nil => intro _; simp [rustEscape, parseBody]
  | cons c cs ih =>
    intro h
    have hc := h c (List.mem_cons_self c cs)
    have hcs := fun x hx => h x (List.mem_cons_of_mem c hx)
    by_cases h1 : c = '"'
    · subst h1
      have hd : (rustEscapeChar '"').data = ['\\', '"'] := by decide
      simp only [rustEscape, hd, List.cons_append]
      rw [parseBody.eq_def]
      simp [ih hcs]
    · by_cases h2 : c = '\\'
      · subst h2
        have hd : (rustEscapeChar '\\').data = ['\\', '\\'] := by decide
        simp only [rustEscape, hd, List.cons_append]
        rw [parseBody.eq_def]
        simp [ih hcs]
      · have h3 : ¬ c = '\n' := fun hh => by subst hh; exact absurd hc.1 (by decide)
        have h4 : ¬ c = '\r' := fun hh => by subst hh; exact absurd hc.1 (by decide)
        have h5 : ¬ c = '\t' := fun hh => by subst hh; exact absurd hc.1 (by decide)
        have h6 : 0x20 ≤ c.toNat ∧ c.toNat ≤ 0x7e := ⟨hc.1, hc.2.1⟩
        have h7 : ¬ c = '\'' := hc.2.2
        have hd : (rustEscapeChar c).data = [c] := by
          unfold rustEscapeChar
          simp only [h1, h2, h3, h4, h5, h6, h7, if_false, ite_false, if_true, ite_true]
          rfl
        have hlt : ¬ c.toNat < 0x20 := by omega
        simp only [rustEscape, hd, List.cons_append, List.singleton_append]
        rw [parseBody.eq_def]
        simp [h1, h2, hlt, ih hcs]

/-- C9 as amended: for every string argument whose characters are all
printable ASCII (code points 0x20-0x7e) other than the single quote —
the characters `format!("{:?}", _)` keeps literal on every toolchain —
the argument encoder emits as its positional component a valid JSON
string literal denoting exactly that string (quotes and backslashes
included), with no options component.  Control characters and, on the
era's toolchain, non-ASCII characters and the single quote are escaped
with Rust's `\u{...}` / `\'` notation, which is not valid JSON — see
the counterexample. -/
theorem printable_string_arg_json (s : String)
    (h : ∀ c ∈ s.data, 0x20 ≤ c.toNat ∧ c.toNat ≤ 0x7e ∧ c ≠ '\'') :
    to_arg (.strA s) = .ok (some (rustDebugStr s), none)
    ∧ jsonParseString (rustDebugStr s) = some s := by
  refine ⟨rfl, ?_⟩
  show (parseBody (rustEscape s.data ++ ['"'])).map (fun cs => (⟨cs⟩ : String)) = some s
  rw [parseBody_rustEscape s.data h]
  rfl

/-- Closed instance of `printable_string_arg_json` on a string
containing a quote. -/
theorem printable_string_arg_json_witness :
    to_arg (.strA ("he\"llo")) = .ok (some (rustDebugStr ("he\"llo")), none)
    ∧ jsonParseString (rustDebugStr ("he\"llo")) = some ("he\"llo") :=
  printable_string_arg_json ("he\"llo") (by decide)

/-- C9 counterexample: the one-character string 0x01 is encoded by the
argument encoder as `"\u{1}"` (Rust `Debug` escaping), which is not a
valid JSON string literal — parsing it fails, so the encoder does not
emit a JSON string literal denoting the input. -/
theorem control_char_arg_not_json :
    to_arg (.strA ("\x01")) = .ok (some (rustDebugStr ("\x01")), none)
    ∧ jsonParseString (rustDebugStr ("\x01")) = none :=
  ⟨rfl, by decide⟩

/-- C6: for every opcode, every well-formed optional argument (one whose
encoding succeeds with a positional component serializing the JSON value
`av`, and an options component serializing `ov` exactly when `oov` is
present) and every well-formed optional sub-term (the serialization of
`sv`), the string produced by `Command::wrap` is the serialization of a
2- or 3-element JSON array whose first element is the integer value of
the opcode.  The third element is present exactly when the argument's
encoding produced an options component, and with no argument and no
sub-term the second element is the empty array `[]`. -/
theorem command_wrap_shape (op : Nat) (input : Option CmdArg)
    (commands : Option String) (av sv : JValue) (oov : Option JValue)
    (hsub : commands = none ∨ commands = some (render sv))
    (hin : match input with
           | none => oov = none
           | some a => to_arg a = .ok (some (render av), oov.map render)) :
    Command.wrap op input commands
      = .ok (render (.arr ([JValue.u64 op,
          .arr ((match commands with | none => [] | some _ => [sv])
            ++ (match input with | none => [] | some _ => [av]))]
          ++ (match oov with | none => [] | some ov => [ov])))) := by
  cases input with
  | none =>
    simp only at hin
    subst hin
    rcases hsub with h | h <;> subst h <;>
      simp [Command.wrap, Except.ok.injEq, String.ext_iff, render, renderElems,
        String.data_append]
  | some a =>
    simp only at hin
    cases oov with
    | none =>
      rcases hsub with h | h <;> subst h <;>
        simp [Command.wrap, hin, Except.ok.injEq, String.ext_iff, render,
          renderElems, String.data_append]
    | some ov =>
      rcases hsub with h | h <;> subst h <;>
        simp [Command.wrap, hin, Except.ok.injEq, String.ext_iff, render,
          renderElems, String.data_append]

/-- Closed instance of `command_wrap_shape`: `db("test")`-style term
with opcode 14 and a single string argument. -/
theorem command_wrap_shape_witness :
    Command.wrap 14 (some (.strA ("test"))) none
      = .ok (render (.arr [JValue.u64 14, .arr [.str ("test")]])) :=
  command_wrap_shape 14 (some (.strA ("test"))) none (.str ("test")) .null none
    (Or.inl rfl) (by simp [to_arg, render]; decide)

lemma readStage_noReuse {E : Type} (o : Oracle E) (retries i : Nat) (connect : Bool)
    (conn : Conn) (nid : Nat)
    (k : Nat → Bool → Bool → Conn → Nat → List Ev × Except (RunErr E) String)
    (banned : List Nat)
    (hb1 : ∀ c ∈ banned, c < nid)
    (hid : conn.id < nid)
    (hb2 : conn.id ∉ banned)
    (hk : ∀ (i' : Nat) (w' cn' : Bool) (conn' : Conn) (banned' : List Nat),
      (∀ c ∈ banned', c < nid) → conn'.id < nid →
      (∀ c ∈ banned', c = conn'.id → cn' = true) →
      noReuseFrom banned' (k i' w' cn' conn' nid).1) :
    noReuseFrom banned (readStage o retries i connect conn nid k).1 := by
  have hhead : ∀ b, ∀ c ∈ banned, Ev.touches c (Ev.readEv conn.id conn.broken b) = false := by
    intro b c hc
    simp only [Ev.touches, decide_eq_false_iff_not]
    intro hcc
    exact hb2 (hcc ▸ hc)
  cases hrd : o.rd i with
  | ok resp =>
    by_cases hp : strStarts resp shardUnavailableMsg
    · by_cases hl : i = retries - 1
      · subst hl
        simp [readStage, Query.readStep, hrd, hp]
        exact ⟨hhead true, trivial⟩
      · simp [readStage, Query.readStep, hrd, hp, hl]
        refine ⟨hhead true, ?_⟩
        simp only [bannedAfter]
        exact hk (i + 1) true connect conn banned hb1 hid
          (fun c hc hcc => absurd (hcc ▸ hc) hb2)
    · simp [readStage, Query.readStep, hrd, hp]
      exact ⟨hhead true, trivial⟩
  | error e =>
    by_cases hl : i = retries - 1
    · subst hl
      simp [readStage, Query.readStep, hrd]
      exact ⟨hhead false, trivial⟩
    · simp [readStage, Query.readStep, hrd, hl]
      refine ⟨hhead false, ?_⟩
      simp only [bannedAfter]
      exact hk (i + 1) false connect { conn with broken := true } banned hb1 hid
        (fun c hc hcc => absurd (hcc ▸ hc) hb2)

lemma runAttempt_noReuse {E : Type} (o : Oracle E) (retries i : Nat)
    (write connect : Bool) (conn : Conn) (nid : Nat)
    (k : Nat → Bool → Bool → Conn → Nat → List Ev × Except (RunErr E) String)
    (banned : List Nat)
    (hb1 : ∀ c ∈ banned, c < nid)
    (hid : conn.id < nid)
    (hb2 : conn.id ∉ banned)
    (hk : ∀ (i' : Nat) (w' cn' : Bool) (conn' : Conn) (banned' : List Nat),
      (∀ c ∈ banned', c < nid) → conn'.id < nid →
      (∀ c ∈ banned', c = conn'.id → cn' = true) →
      noReuseFrom banned' (k i' w' cn' conn' nid).1) :
    noReuseFrom banned (runAttempt o retries i write connect conn nid k).1 := by
  have hhead : ∀ t b ok, ∀ c ∈ banned, Ev.touches c (Ev.wrote conn.id t b ok) = false := by
    intro t b ok c hc
    simp only [Ev.touches, decide_eq_false_iff_not]
    intro hcc
    exact hb2 (hcc ▸ hc)
  cases write with
  | false =>
    simp only [runAttempt, Bool.false_eq_true, if_false, ite_false]
    exact readStage_noReuse o retries i connect _ nid k banned hb1 hid hb2 hk
  | true =>
    cases hwr : o.wr i with
    | some e =>
      by_cases hl : i = retries - 1
      · subst hl
        simp [runAttempt, Query.writeStep, hwr]
        exact ⟨hhead _ _ _, trivial⟩
      · simp [runAttempt, Query.writeStep, hwr, hl]
        refine ⟨hhead _ _ _, ?_⟩
        simp only [bannedAfter]
        refine hk (i + 1) true true _ (conn.id :: banned) ?_ hid ?_
        · intro c hc
          rcases List.mem_cons.1 hc with h | h
          · exact h ▸ hid
          · exact hb1 c h
        · intro c hc hcc
          rfl
    | none =>
      simp [runAttempt, Query.writeStep, hwr]
      refine ⟨hhead _ _ _, ?_⟩
      simp only [bannedAfter]
      exact readStage_noReuse o retries i false _ nid k banned hb1 hid hb2 hk

lemma runLoop_noReuse {E : Type} (o : Oracle E) (retries : Nat) :
    ∀ (fuel i : Nat) (w connect : Bool) (conn : Conn) (nid : Nat)
      (banned : List Nat),
      (∀ c ∈ banned, c < nid) → conn.id < nid →
      (∀ c ∈ banned, c = conn.id → connect = true) →
      noReuseFrom banned (runLoop o retries fuel i w connect conn nid).1 := by
  intro fuel
  induction fuel with
  | zero =>
    intro i w connect conn nid banned _ _ _
    simp only [runLoop]
    trivial
  | succ fuel ih =>
    intro i w connect conn nid banned hb1 hid hb2
    cases connect with
    | false =>
      have hb2' : conn.id ∉ banned := fun hc => by
        have := hb2 conn.id hc rfl
        simp at this
      simp only [runLoop, Bool.false_eq_true, if_false, ite_false]
      refine runAttempt_noReuse o retries i w false conn nid _ banned hb1 hid hb2' ?_
      intro i' w' cn' conn' banned' h1 h2 h3
      exact ih i' w' cn' conn' nid banned' h1 h2 h3
    | true =>
      cases hacq : o.acq i with
      | error e =>
        by_cases hl : i = retries - 1
        · subst hl
          simp [runLoop, hacq]
          trivial
        · simp [runLoop, hacq, hl]
          exact ih (i + 1) w true conn nid banned hb1 hid hb2
      | ok t0 =>
        simp [runLoop, hacq]
        refine ⟨?_, ?_⟩
        · intro c hc
          simp [Ev.touches]
        · simp only [bannedAfter]
          refine runAttempt_noReuse o retries i w true ⟨nid, t0, false⟩ (nid + 1) _
            banned (fun c hc => Nat.lt_succ_of_lt (hb1 c hc)) (Nat.lt_succ_self nid)
            (fun hc => Nat.lt_irrefl nid (hb1 nid hc)) ?_
          intro i' w' cn' conn' banned' h1 h2 h3
          exact ih i' w' cn' conn' (nid + 1) banned' h1 h2 h3

/-- C2 as amended: after any attempt whose frame-write fails (setting
the connection's broken flag), no later frame-write or frame-read ever
touches that connection again — every later attempt first discards it
and acquires a fresh one before touching the stream.  (After a
frame-read failure, by contrast, the broken connection is reused — see
the counterexample.) -/
theorem no_reuse_after_write_failure {E : Type} (o : Oracle E)
    (self : Except BuildErr String) (retries : Nat)
    (initialConn : Except E Nat) :
    noReuseFrom [] (RootCommand.run self retries initialConn o).1 := by
  cases self with
  | error e => simp [RootCommand.run, noReuseFrom]
  | ok commands =>
    cases initialConn with
    | error e => simp [RootCommand.run, noReuseFrom]
    | ok t0 =>
      simp only [RootCommand.run]
      refine ⟨by simp, ?_⟩
      simp only [bannedAfter]
      exact runLoop_noReuse o retries retries 0 true false ⟨0, t0, false⟩ 1 []
        (by simp) (by simp) (by simp)

lemma okWriteTokens_nil (c : Nat) : okWriteTokens c [] = [] := rfl

lemma okWriteTokens_cons_acq (c id t0 : Nat) (l : List Ev) :
    okWriteTokens c (Ev.acquired id t0 :: l) = okWriteTokens c l := rfl

lemma okWriteTokens_cons_read (c id : Nat) (b ok : Bool) (l : List Ev) :
    okWriteTokens c (Ev.readEv id b ok :: l) = okWriteTokens c l := rfl

lemma okWriteTokens_cons_wrote_fail (c id tok : Nat) (b : Bool) (l : List Ev) :
    okWriteTokens c (Ev.wrote id tok b false :: l) = okWriteTokens c l := rfl

lemma okWriteTokens_cons_wrote_ok (c id tok : Nat) (b : Bool) (l : List Ev) :
    okWriteTokens c (Ev.wrote id tok b true :: l)
      = if id = c then tok :: okWriteTokens c l else okWriteTokens c l := rfl

lemma tokenFacts_nil (cid tok nid : Nat) : TokenFacts cid tok nid [] := by
  refine ⟨?_, ?_, ?_, ?_, ?_⟩ <;> simp [okWriteTokens_nil]

lemma TokenFacts.consRead {cid tok nid : Nat} {l : List Ev} (b ok : Bool)
    (h : TokenFacts cid tok nid l) :
    TokenFacts cid tok nid (Ev.readEv cid b ok :: l) := by
  refine ⟨?_, ?_, ?_, ?_, ?_⟩
  · simpa [okWriteTokens_cons_read] using h.chainCur
  · simpa [okWriteTokens_cons_read] using h.gtCur
  · intro c t0 hc hm
    rw [okWriteTokens_cons_read]
    exact h.freshChain c t0 hc (by
      rcases List.mem_cons.1 hm with hh | hh
      · cases hh
      · exact hh)
  · intro c t0 hm
    rcases List.mem_cons.1 hm with hh | hh
    · cases hh
    · exact h.freshId c t0 hh
  · intro e he c htc
    rcases List.mem_cons.1 he with hh | hh
    · subst hh
      simp only [Ev.touches, decide_eq_true_eq] at htc
      exact Or.inl htc.symm
    · exact h.touchedIds e hh c htc

lemma TokenFacts.consWroteFail {cid tok nid : Nat} {l : List Ev} (t : Nat) (b : Bool)
    (h : TokenFacts cid tok nid l) :
    TokenFacts cid tok nid (Ev.wrote cid t b false :: l) := by
  refine ⟨?_, ?_, ?_, ?_, ?_⟩
  · simpa [okWriteTokens_cons_wrote_fail] using h.chainCur
  · simpa [okWriteTokens_cons_wrote_fail] using h.gtCur
  · intro c t0 hc hm
    rw [okWriteTokens_cons_wrote_fail]
    exact h.freshChain c t0 hc (by
      rcases List.mem_cons.1 hm with hh | hh
      · cases hh
      · exact hh)
  · intro c t0 hm
    rcases List.mem_cons.1 hm with hh | hh
    · cases hh
    · exact h.freshId c t0 hh
  · intro e he c htc
    rcases List.mem_cons.1 he with hh | hh
    · subst hh
      simp only [Ev.touches, decide_eq_true_eq] at htc
      exact Or.inl htc.symm
    · exact h.touchedIds e hh c htc

lemma TokenFacts.consWroteOk {cid tok nid : Nat} {l : List Ev} (b : Bool)
    (hid : cid < nid) (h : TokenFacts cid (tok + 1) nid l) :
    TokenFacts cid tok nid (Ev.wrote cid (tok + 1) b true :: l) := by
  refine ⟨?_, ?_, ?_, ?_, ?_⟩
  · rw [okWriteTokens_cons_wrote_ok, if_pos rfl]
    rw [List.chain'_cons']
    refine ⟨?_, h.chainCur⟩
    intro y hy
    exact h.gtCur y (List.mem_of_mem_head? hy)
  · rw [okWriteTokens_cons_wrote_ok, if_pos rfl]
    intro x hx
    rcases List.mem_cons.1 hx with hh | hh
    · omega
    · have := h.gtCur x hh
      omega
  · intro c t0 hc hm
    have hne : ¬ cid = c := by omega
    rw [okWriteTokens_cons_wrote_ok, if_neg hne]
    exact h.freshChain c t0 hc (by
      rcases List.mem_cons.1 hm with hh | hh
      · cases hh
      · exact hh)
  · intro c t0 hm
    rcases List.mem_cons.1 hm with hh | hh
    · cases hh
    · exact h.freshId c t0 hh
  · intro e he c htc
    rcases List.mem_cons.1 he with hh | hh
    · subst hh
      simp only [Ev.touches, decide_eq_true_eq] at htc
      exact Or.inl htc.symm
    · exact h.touchedIds e hh c htc

lemma TokenFacts.weakenTok {cid tok' nid : Nat} {l : List Ev} (tok : Nat)
    (hle : tok ≤ tok') (h : TokenFacts cid tok' nid l) :
    TokenFacts cid tok nid l := by
  refine ⟨h.chainCur, ?_, h.freshChain, h.freshId, h.touchedIds⟩
  intro x hx
  have := h.gtCur x hx
  omega

lemma okWriteTokens_eq_nil_of_not_touches (c : Nat) :
    ∀ (l : List Ev), (∀ e ∈ l, Ev.touches c e = false) → okWriteTokens c l = [] := by
  intro l
  induction l with
  | nil => intro _; rfl
  | cons e l ih =>
    intro h
    have he := h e (List.mem_cons_self e l)
    have hl := fun x hx => h x (List.mem_cons_of_mem e hx)
    cases e with
    | acquired id t0 => rw [okWriteTokens_cons_acq]; exact ih hl
    | readEv id b ok => rw [okWriteTokens_cons_read]; exact ih hl
    | wrote id t0 b ok =>
      cases ok with
      | false => rw [okWriteTokens_cons_wrote_fail]; exact ih hl
      | true =>
        rw [okWriteTokens_cons_wrote_ok]
        simp only [Ev.touches, decide_eq_false_iff_not] at he
        rw [if_neg he]
        exact ih hl

lemma readStage_tokens {E : Type} (o : Oracle E) (retries i : Nat) (CN : Bool)
    (conn : Conn) (nid : Nat)
    (k : Nat → Bool → Bool → Conn → Nat → List Ev × Except (RunErr E) String)
    (hk1 : TokenFacts conn.id conn.token nid (k (i + 1) true CN conn nid).1)
    (hk2 : TokenFacts conn.id conn.token nid
      (k (i + 1) false CN { conn with broken := true } nid).1) :
    TokenFacts conn.id conn.token nid (readStage o retries i CN conn nid k).1 := by
  cases hrd : o.rd i with
  | ok resp =>
    by_cases hp : strStarts resp shardUnavailableMsg
    · by_cases hl : i = retries - 1
      · subst hl
        simp only [readStage, Query.readStep, hrd, hp, if_true, ite_true, reduceIte]
        exact TokenFacts.consRead conn.broken true (tokenFacts_nil _ _ _)
      · simp only [readStage, Query.readStep, hrd, hp, hl, if_true, ite_true,
          if_false, ite_false, reduceIte]
        exact TokenFacts.consRead conn.broken true hk1
    · simp only [readStage, Query.readStep, hrd, hp, if_false, ite_false, reduceIte]
      exact TokenFacts.consRead conn.broken true (tokenFacts_nil _ _ _)
  | error e =>
    by_cases hl : i = retries - 1
    · subst hl
      simp only [readStage, Query.readStep, hrd, if_true, ite_true, reduceIte]
      exact TokenFacts.consRead conn.broken false (tokenFacts_nil _ _ _)
    · simp only [readStage, Query.readStep, hrd, hl, if_false, ite_false, reduceIte]
      exact TokenFacts.consRead conn.broken false hk2

lemma runAttempt_tokens {E : Type} (o : Oracle E) (retries i : Nat) (W CN : Bool)
    (conn : Conn) (nid : Nat)
    (k : Nat → Bool → Bool → Conn → Nat → List Ev × Except (RunErr E) String)
    (hid : conn.id < nid)
    (htok : conn.token + 1 < 2 ^ 64)
    (hwcn : CN = true → W = true)
    (hk : ∀ (i' : Nat) (w' cn' : Bool) (conn' : Conn),
      conn'.id = conn.id → conn'.token = conn.token + 1 → (cn' = true → w' = true) →
      TokenFacts conn.id (conn.token + 1) nid (k i' w' cn' conn' nid).1
      ∧ (cn' = true → okWriteTokens conn.id (k i' w' cn' conn' nid).1 = [])) :
    TokenFacts conn.id conn.token nid (runAttempt o retries i W CN conn nid k).1
    ∧ (W = true → ∀ x,
        (okWriteTokens conn.id (runAttempt o retries i W CN conn nid k).1).head?
          = some x → x = conn.token + 1) := by
  have hmod : (conn.token + 1) % 2 ^ 64 = conn.token + 1 := Nat.mod_eq_of_lt htok
  cases W with
  | false =>
    have hcn : CN = false := by
      cases CN with
      | false => rfl
      | true => exact absurd (hwcn rfl) (by simp)
    subst hcn
    simp only [runAttempt, Bool.false_eq_true, if_false, ite_false, hmod, reduceIte]
    constructor
    · refine TokenFacts.weakenTok conn.token (Nat.le_succ _) ?_
      refine readStage_tokens o retries i false
        { conn with token := conn.token + 1 } nid k ?_ ?_
      · exact (hk (i + 1) true false { conn with token := conn.token + 1 }
          rfl rfl (by simp)).1
      · exact (hk (i + 1) false false
          { id := conn.id, token := conn.token + 1, broken := true }
          rfl rfl (by simp)).1
    · intro hF
      exact absurd hF (by simp)
  | true =>
    cases hwr : o.wr i with
    | some e =>
      by_cases hl : i = retries - 1
      · subst hl
        simp only [runAttempt, Query.writeStep, hwr, if_true, ite_true, hmod, reduceIte]
        constructor
        · exact TokenFacts.consWroteFail (conn.token + 1) conn.broken (tokenFacts_nil _ _ _)
        · intro _ x hx
          rw [okWriteTokens_cons_wrote_fail, okWriteTokens_nil] at hx
          cases hx
      · simp only [runAttempt, Query.writeStep, hwr, hl, if_true, ite_true,
          if_false, ite_false, hmod, reduceIte]
        have hkk := hk (i + 1) true true
          { id := conn.id, token := conn.token + 1, broken := true } rfl rfl (fun _ => rfl)
        have hkempty := hkk.2 rfl
        constructor
        · exact TokenFacts.consWroteFail (conn.token + 1) conn.broken
            (TokenFacts.weakenTok conn.token (Nat.le_succ _) hkk.1)
        · intro _ x hx
          rw [okWriteTokens_cons_wrote_fail, hkempty] at hx
          cases hx
    | none =>
      simp only [runAttempt, Query.writeStep, hwr, if_true, ite_true, hmod, reduceIte]
      have hrs : TokenFacts conn.id (conn.token + 1) nid
          (readStage o retries i false { conn with token := conn.token + 1 } nid k).1 := by
        refine readStage_tokens o retries i false
          { conn with token := conn.token + 1 } nid k ?_ ?_
        · exact (hk (i + 1) true false { conn with token := conn.token + 1 }
            rfl rfl (by simp)).1
        · exact (hk (i + 1) false false
            { id := conn.id, token := conn.token + 1, broken := true }
            rfl rfl (by simp)).1
      constructor
      · exact TokenFacts.consWroteOk conn.broken hid hrs
      · intro _ x hx
        rw [okWriteTokens_cons_wrote_ok, if_pos rfl] at hx
        simp only [List.head?_cons, Option.some.injEq] at hx
        exact hx.symm

lemma runLoop_tokens {E : Type} (o : Oracle E) (retries : Nat) :
    ∀ (fuel i : Nat) (w connect : Bool) (conn : Conn) (nid : Nat),
      conn.id < nid →
      (connect = true → w = true) →
      conn.token + fuel < 2 ^ 64 →
      (∀ j t0, o.acq j = .ok t0 → t0 + fuel < 2 ^ 64) →
      TokenFacts conn.id conn.token nid (runLoop o retries fuel i w connect conn nid).1
      ∧ (connect = false → w = true → ∀ x,
          (okWriteTokens conn.id (runLoop o retries fuel i w connect conn nid).1).head?
            = some x → x = conn.token + 1)
      ∧ (connect = true →
          okWriteTokens conn.id (runLoop o retries fuel i w connect conn nid).1 = []) := by
  intro fuel
  induction fuel with
  | zero =>
    intro i w connect conn nid _ _ _ _
    simp only [runLoop]
    refine ⟨tokenFacts_nil _ _ _, ?_, fun _ => rfl⟩
    intro _ _ x hx
    rw [okWriteTokens_nil] at hx
    cases hx
  | succ fuel ih =>
    intro i w connect conn nid hid hcw hbound horacle
    have hbound' : conn.token + 1 + fuel < 2 ^ 64 := by omega
    have horacle' : ∀ j t0, o.acq j = .ok t0 → t0 + fuel < 2 ^ 64 := by
      intro j t0 hj
      have := horacle j t0 hj
      omega
    cases connect with
    | false =>
      have hk1 : ∀ (i' : Nat) (w' cn' : Bool) (conn' : Conn),
          conn'.id = conn.id → conn'.token = conn.token + 1 → (cn' = true → w' = true) →
          TokenFacts conn.id (conn.token + 1) nid
            (runLoop o retries fuel i' w' cn' conn' nid).1
          ∧ (cn' = true →
              okWriteTokens conn.id (runLoop o retries fuel i' w' cn' conn' nid).1 = []) := by
        intro i' w' cn' conn' hcid htok hcnw
        have hh := ih i' w' cn' conn' nid (by rw [hcid]; exact hid) hcnw
          (by rw [htok]; omega) horacle'
        rw [hcid, htok] at hh
        exact ⟨hh.1, fun hcn => hh.2.2 hcn⟩
      have hat := runAttempt_tokens o retries i w false conn nid (runLoop o retries fuel)
        hid (by omega) (fun h => Bool.noConfusion h) hk1
      simp only [runLoop, Bool.false_eq_true, if_false, ite_false, reduceIte]
      exact ⟨hat.1, fun _ hw x hx => hat.2 hw x hx, fun h => h.elim⟩
    | true =>
      have hw : w = true := hcw rfl
      subst hw
      cases hacq : o.acq i with
      | error e =>
        by_cases hl : i = retries - 1
        · subst hl
          simp only [runLoop, hacq, if_true, ite_true, reduceIte]
          refine ⟨tokenFacts_nil _ _ _, fun h => Bool.noConfusion h, fun _ => rfl⟩
        · simp only [runLoop, hacq, hl, if_true, ite_true, if_false, ite_false, reduceIte]
          have hh := ih (i + 1) true true conn nid hid (fun _ => rfl) (by omega) horacle'
          exact ⟨hh.1, fun h => Bool.noConfusion h, fun _ => hh.2.2 rfl⟩
      | ok t0 =>
        have ht0 : t0 + (fuel + 1) < 2 ^ 64 := horacle i t0 hacq
        have hk2 : ∀ (i' : Nat) (w' cn' : Bool) (conn' : Conn),
            conn'.id = nid → conn'.token = t0 + 1 → (cn' = true → w' = true) →
            TokenFacts nid (t0 + 1) (nid + 1)
              (runLoop o retries fuel i' w' cn' conn' (nid + 1)).1
            ∧ (cn' = true →
                okWriteTokens nid (runLoop o retries fuel i' w' cn' conn' (nid + 1)).1 = []) := by
          intro i' w' cn' conn' hcid htok hcnw
          have hh := ih i' w' cn' conn' (nid + 1) (by rw [hcid]; omega) hcnw
            (by rw [htok]; omega) horacle'
          rw [hcid, htok] at hh
          exact ⟨hh.1, fun hcn => hh.2.2 hcn⟩
        have hat := runAttempt_tokens o retries i true true ⟨nid, t0, false⟩ (nid + 1)
          (runLoop o retries fuel) (Nat.lt_succ_self nid)
          (show t0 + 1 < 2 ^ 64 by omega) (fun _ => rfl) hk2
        simp only [runLoop, hacq, reduceIte]
        have hnotouch : ∀ e ∈ (runAttempt o retries i true true ⟨nid, t0, false⟩ (nid + 1)
            (runLoop o retries fuel)).1, Ev.touches conn.id e = false := by
          intro e he
          cases hto : Ev.touches conn.id e with
          | false => rfl
          | true =>
            have := hat.1.touchedIds e he conn.id hto
            rcases this with h | h
            · have h2 : conn.id = nid := h
              omega
            · have h2 : nid + 1 ≤ conn.id := h
              omega
        have hempty : okWriteTokens conn.id
            (Ev.acquired nid t0 :: (runAttempt o retries i true true ⟨nid, t0, false⟩
              (nid + 1) (runLoop o retries fuel)).1) = [] := by
          rw [okWriteTokens_cons_acq]
          exact okWriteTokens_eq_nil_of_not_touches _ _ hnotouch
        refine ⟨⟨?_, ?_, ?_, ?_, ?_⟩, fun h => Bool.noConfusion h, fun _ => hempty⟩
        · rw [hempty]
          exact List.chain'_nil
        · rw [hempty]
          intro x hx
          cases hx
        · intro c t0' hc hm
          rw [okWriteTokens_cons_acq]
          rcases List.mem_cons.1 hm with hh | hh
          · injection hh with h1 h2
            subst h1
            subst h2
            exact ⟨hat.1.chainCur, fun x hx => hat.2 rfl x hx⟩
          · have hge := hat.1.freshId c t0' hh
            exact hat.1.freshChain c t0' hge hh
        · intro c t0' hm
          rcases List.mem_cons.1 hm with hh | hh
          · injection hh with h1 h2
            omega
          · have := hat.1.freshId c t0' hh
            omega
        · intro e he c htc
          rcases List.mem_cons.1 he with hh | hh
          · subst hh
            simp only [Ev.touches] at htc
            cases htc
          · rcases hat.1.touchedIds e hh c htc with h | h
            · have h2 : c = nid := h
              right
              omega
            · have h2 : nid + 1 ≤ c := h
              right
              omega

/-- C8: the token counter is incremented before each frame-write (the
first write on any connection carries its initial token plus one), and
across any sequence of successful frame-writes on one connection the
tokens emitted on the wire form a strictly increasing sequence starting
from `initial_token + 1`.  The token bounds keep the `u64` counter from
wrapping, as it cannot within a run (`retries` increments at most). -/
theorem write_tokens_monotonic {E : Type} (o : Oracle E)
    (self : Except BuildErr String) (retries : Nat) (initialConn : Except E Nat)
    (hb : ∀ j t0, o.acq j = .ok t0 → t0 + retries < 2 ^ 64)
    (h0 : ∀ t0, initialConn = .ok t0 → t0 + retries < 2 ^ 64)
    (c t0 : Nat)
    (hacq : Ev.acquired c t0 ∈ (RootCommand.run self retries initialConn o).1) :
    List.Chain' (· < ·)
      (okWriteTokens c (RootCommand.run self retries initialConn o).1)
    ∧ ∀ x, (okWriteTokens c (RootCommand.run self retries initialConn o).1).head?
        = some x → x = t0 + 1 := by
  cases self with
  | error e => simp [RootCommand.run] at hacq
  | ok commands =>
    cases initialConn with
    | error e => simp [RootCommand.run] at hacq
    | ok t0' =>
      have hrl := runLoop_tokens o retries retries 0 true false ⟨0, t0', false⟩ 1
        (show (0 : Nat) < 1 by omega) (fun _ => rfl)
        (show t0' + retries < 2 ^ 64 from h0 t0' rfl)
        (fun j u hj => hb j u hj)
      simp only [RootCommand.run] at hacq ⊢
      rcases List.mem_cons.1 hacq with hh | hh
      · injection hh with h1 h2
        subst h1
        subst h2
        rw [okWriteTokens_cons_acq]
        exact ⟨hrl.1.chainCur, fun x hx => hrl.2.1 rfl rfl x hx⟩
      · have hge := hrl.1.freshId c t0 hh
        rw [okWriteTokens_cons_acq]
        exact hrl.1.freshChain c t0 hge hh

/-- Closed instance of `write_tokens_monotonic`: one attempt on the
initial connection with initial token 5; the one wire write carries
token 6. -/
theorem write_tokens_monotonic_witness :
    List.Chain' (· < ·) (okWriteTokens 0
      (RootCommand.run (.ok ("[1]")) 1 (.ok 5 : Except Unit Nat) oracleSuccess).1)
    ∧ ∀ x, (okWriteTokens 0
        (RootCommand.run (.ok ("[1]")) 1 (.ok 5 : Except Unit Nat) oracleSuccess).1).head?
          = some x → x = 5 + 1 :=
  write_tokens_monotonic oracleSuccess (.ok ("[1]")) 1 (.ok 5)
    (fun j u hj => by
      simp only [oracleSuccess] at hj
      injection hj with h
      subst h
      norm_num)
    (fun u h => by
      injection h with h
      subst h
      norm_num)
    0 5 (by decide)
